import Mathlib

/-!
Verification of the flight-deal watcher `watch_tokyo_amadeus.py`.

The script is embedded shallowly:
* calendar dates are Python ordinals (`Nat`, `date.toordinal`), so that
  `weekday d = (d + 6) % 7` matches `datetime.date.weekday` (ordinal 1 is a Monday);
* prices (Python floats parsed from JSON strings) are modelled as `ℚ`;
* the mutable `requests_left` integer is threaded explicitly (`ℤ`, as a Python int);
* the upstream search API is an oracle `Fetch`; an exception escaping a call is
  `Except.error`;
* `for … break/continue` loops become structural recursion over the iterated lists,
  with `break` returning the current state and `continue` recursing unchanged.
-/

-- Batteries marks the `Rat` arithmetic operations `@[irreducible]`; lift that within
-- this file so that concrete runs of the embedded program evaluate by `decide`/`rfl`.
attribute [local semireducible] Rat.mul Rat.add Rat.sub Rat.inv Rat.ofScientific

namespace Watch

/-- Python `datetime.date.weekday` on an ordinal: 0 = Monday … 6 = Sunday
(ordinal 1, 0001-01-01, is a Monday). -/
def weekday (d : Nat) : Nat := (d + 6) % 7

/-- Fuel-driven core of `daterange`: the `n` consecutive ordinals starting at `d`. -/
def daterangeGo : Nat → Nat → List Nat
  | 0, _ => []
  | n + 1, d => d :: daterangeGo n (d + 1)

/-- The generator `daterange(d1, d2)`: yields `d1, d1+1, …, d2` (inclusive); empty when `d2 < d1`. -/
def daterange (d1 d2 : Nat) : List Nat := daterangeGo (d2 + 1 - d1) d1

/-- The environment-driven configuration block (lines 11–32 of the script). -/
structure Config where
  origins : List String
  dests : List String
  adults : Nat
  currency : String
  maxPricePerPax : ℚ
  tripLength : Nat
  departStart : Nat
  departEnd : Nat
  departWeekdays : Finset Nat
  maxRequestsPerRun : ℤ
  deriving DecidableEq

/-- The price ceiling used by the local acceptance test (line 162):
`MAX_PRICE_PER_PAX * ADULTS`, not truncated. -/
def localCeiling (cfg : Config) : ℚ := cfg.maxPricePerPax * cfg.adults

/-- Python `int()` on a float/rational: truncation toward zero. -/
def pythonInt (q : ℚ) : ℤ := if 0 ≤ q then ⌊q⌋ else ⌈q⌉

/-- The `maxPrice` request parameter sent upstream (line 80):
`int(MAX_PRICE_PER_PAX * ADULTS)`. -/
def searchMaxPriceParam (cfg : Config) : ℤ := pythonInt (cfg.maxPricePerPax * cfg.adults)

/-- One flight segment of an itinerary, with the fields `summarize_offer` reads. -/
structure Segment where
  depAt : String
  arrAt : String
  carrier : String
  deriving DecidableEq

/-- One itinerary: a list of segments. -/
structure Itinerary where
  segments : List Segment
  deriving DecidableEq

/-- A raw offer from the response JSON.  `price? = none` models a missing
`price`/`total` field (`KeyError`), `price? = some none` a present but unparseable
price string (`float` raises `ValueError`), `price? = some (some q)` a price that
`float()` parses to `q`.  `itineraries` is the (possibly empty) `itineraries` list. -/
structure RawOffer where
  price? : Option (Option ℚ)
  itineraries : List Itinerary
  deriving DecidableEq

/-- Helper `first_last_times` (lines 106–109): departure of the first and arrival of the
last segment (date part only); fails (`IndexError`) on an empty segment list. -/
def firstLastTimes (itin : Itinerary) : Option (String × String) :=
  match itin.segments.head?, itin.segments.getLast? with
  | some s0, some sl => some (s0.depAt.take 10, sl.arrAt.take 10)
  | _, _ => none

/-- Function `summarize_offer` (lines 102–122).  Reads the price field, the first two
itineraries and their first/last segments; any missing piece is an uncaught
`KeyError`/`IndexError`, modelled as `Except.error ()`.  The rendered text keeps
the same data (origin, destination, dates, total, adults, ceiling, sorted carrier
set) in a simplified format. -/
def summarize_offer (cfg : Config) (offer : RawOffer) (origin destShown : String) :
    Except Unit String :=
  match offer.price? with
  | none => .error ()
  | some priceTotal =>
    match offer.itineraries[0]?, offer.itineraries[1]? with
    | some itin0, some itin1 =>
      match firstLastTimes itin0, firstLastTimes itin1 with
      | some outLeg, some retLeg =>
        let priceText := match priceTotal with
          | some q => toString q.num
          | none => "?"
        let carriers := ((offer.itineraries.flatMap (·.segments)).map (·.carrier)).dedup
        let carriersStr := String.intercalate ", " (carriers.mergeSort (· ≤ ·))
        .ok (origin ++ " -> " ++ destShown ++ " (Tokyo) | Out: " ++ outLeg.1 ++
          " | Back: " ++ retLeg.1 ++ " | Total: " ++ cfg.currency ++ " " ++ priceText ++
          " for " ++ toString cfg.adults ++ " adult(s) (<= " ++
          toString (searchMaxPriceParam cfg) ++ ") | Carriers: " ++ carriersStr)
      | _, _ => .error ()
    | _, _ => .error ()

/-- The best-offer update of lines 162–165, given an already parsed `total` and
computed `summary`: accept only when `total <= MAX_PRICE_PER_PAX * ADULTS`,
replace only when no best exists yet or `total` is strictly lower. -/
def consider (cfg : Config) (best : Option (ℚ × String)) (total : ℚ) (summary : String) :
    Option (ℚ × String) :=
  if total ≤ localCeiling cfg then
    match best with
    | none => some (total, summary)
    | some b => if total < b.1 then some (total, summary) else some b
  else best

/-- Lines 157–165, one iteration of `for offer in offers`: parse the price (the
`try/except` turns a missing or unparseable price into `continue`), and for a
qualifying price call `summarize_offer` — whose failure is NOT caught and aborts
the run — then update the best offer. -/
def processOffer (cfg : Config) (origin dest : String) (best : Option (ℚ × String))
    (offer : RawOffer) : Except Unit (Option (ℚ × String)) :=
  match offer.price? with
  | some (some total) =>
    if total ≤ localCeiling cfg then
      match summarize_offer cfg offer origin dest with
      | .error e => .error e
      | .ok summary => .ok (consider cfg best total summary)
    else .ok best
  | _ => .ok best

/-- The whole `for offer in offers` loop (lines 157–165). -/
def processOffers (cfg : Config) (origin dest : String) :
    Option (ℚ × String) → List RawOffer → Except Unit (Option (ℚ × String))
  | best, [] => .ok best
  | best, offer :: rest =>
    match processOffer cfg origin dest best offer with
    | .error e => .error e
    | .ok best' => processOffers cfg origin dest best' rest

/-- One enumerated search point: origin, destination, departure and return ordinals. -/
structure SearchQuery where
  origin : String
  dest : String
  depart : Nat
  ret : Nat
  deriving DecidableEq

/-- The mutable state of `main`: `requests_left`, `best`, plus the trace of queries
actually dispatched upstream (`true` = the fetch returned, `false` = it raised). -/
structure RunState where
  requestsLeft : ℤ
  best : Option (ℚ × String)
  dispatched : List (SearchQuery × Bool)
  deriving DecidableEq

/-- The upstream search oracle: what `search_flights` does for a query — either
raises (`error`) or returns the parsed `data` list of raw offers. -/
def Fetch : Type := SearchQuery → Except Unit (List RawOffer)

/-- Lines 139–165, the body run for one dispatchable query: call `search_flights`
inside `try/except` (failure prints and `continue`s, leaving `requests_left` and
`best` untouched), otherwise decrement `requests_left` and fold the offers. -/
def processQuery (cfg : Config) (fetch : Fetch) (st : RunState) (q : SearchQuery) :
    Except Unit RunState :=
  match fetch q with
  | .error _ => .ok { st with dispatched := st.dispatched ++ [(q, false)] }
  | .ok offers =>
    match processOffers cfg q.origin q.dest st.best offers with
    | .error e => .error e
    | .ok best' =>
      .ok { requestsLeft := st.requestsLeft - 1, best := best',
            dispatched := st.dispatched ++ [(q, true)] }

/-- The innermost loop `for d in daterange(...)` (lines 131–165): skip days whose
weekday is filtered out (`continue`), then `break` when the budget is exhausted,
otherwise dispatch the query for that day. -/
def scanDates (cfg : Config) (fetch : Fetch) (origin dest : String) :
    RunState → List Nat → Except Unit RunState
  | st, [] => .ok st
  | st, d :: ds =>
    if weekday d ∈ cfg.departWeekdays then
      if st.requestsLeft ≤ 0 then .ok st
      else
        match processQuery cfg fetch st ⟨origin, dest, d, d + cfg.tripLength⟩ with
        | .error e => .error e
        | .ok st' => scanDates cfg fetch origin dest st' ds
    else scanDates cfg fetch origin dest st ds

/-- The middle loop `for dest_code in DEST_CODES` (lines 130–168), with the
post-loop `if requests_left <= 0: break`. -/
def scanDests (cfg : Config) (fetch : Fetch) (origin : String) :
    RunState → List String → Except Unit RunState
  | st, [] => .ok st
  | st, dest :: rest =>
    match scanDates cfg fetch origin dest st (daterange cfg.departStart cfg.departEnd) with
    | .error e => .error e
    | .ok st' =>
      if st'.requestsLeft ≤ 0 then .ok st' else scanDests cfg fetch origin st' rest

/-- The outer loop `for origin in ORIGINS` (line 129); it has no budget break of
its own. -/
def scanOrigins (cfg : Config) (fetch : Fetch) :
    RunState → List String → Except Unit RunState
  | st, [] => .ok st
  | st, origin :: rest =>
    match scanDests cfg fetch origin st cfg.dests with
    | .error e => .error e
    | .ok st' => scanOrigins cfg fetch st' rest

/-- The observable outcome of a run: the final state, the messages handed to the
notification sink (`send_alert`), and the final console report. -/
structure RunOutcome where
  state : RunState
  alerts : List String
  report : String
  deriving DecidableEq

/-- Function `main` (lines 124–177), with credential acquisition abstracted away (it
happens before the budget is initialized and consumes none of it): walk the
space, then notify at most once, only when a best offer exists. -/
def main_run (cfg : Config) (fetch : Fetch) : Except Unit RunOutcome :=
  match scanOrigins cfg fetch ⟨cfg.maxRequestsPerRun, none, []⟩ cfg.origins with
  | .error e => .error e
  | .ok st =>
    .ok { state := st
          alerts := match st.best with
            | some b => [b.2]
            | none => []
          report := match st.best with
            | some b => "ALERT: " ++ b.2
            | none => "No deals under threshold this run." }

/-- The days of the search window that survive the weekday filter (lines 131–133). -/
def validDays (cfg : Config) : List Nat :=
  (daterange cfg.departStart cfg.departEnd).filter
    (fun d => decide (weekday d ∈ cfg.departWeekdays))

/-- The pure search-space enumeration implied by the three nested loops of `main`
(lines 129–136), ignoring the budget: origins outermost, then destinations, then
the filtered days in ascending order; return date is depart + `TRIP_LENGTH`. -/
def enumerateQueries (cfg : Config) : List SearchQuery :=
  cfg.origins.flatMap fun origin =>
    cfg.dests.flatMap fun dest =>
      (validDays cfg).map fun d => ⟨origin, dest, d, d + cfg.tripLength⟩

/-- The offer-selector fold of lines 157–165 on already parsed and summarized
offers, starting from no best offer. -/
def selectorFold (cfg : Config) (offers : List (ℚ × String)) : Option (ℚ × String) :=
  offers.foldl (fun best p => consider cfg best p.1 p.2) none

/-! ### Facts about `daterange` and the enumeration -/

theorem daterangeGo_eq_range : ∀ (n d : Nat), daterangeGo n d = (List.range n).map (fun i => d + i)
  | 0, _ => by simp [daterangeGo]
  | n + 1, d => by
    rw [daterangeGo, daterangeGo_eq_range n (d + 1), List.range_succ_eq_map]
    simp only [List.map_cons, Nat.add_zero, List.map_map, List.cons.injEq, true_and]
    exact List.map_congr_left fun i _ => by simp [Function.comp]; omega

theorem mem_daterange {d1 d2 x : Nat} : x ∈ daterange d1 d2 ↔ d1 ≤ x ∧ x ≤ d2 := by
  rw [daterange, daterangeGo_eq_range]
  simp only [List.mem_map, List.mem_range]
  constructor
  · rintro ⟨i, hi, rfl⟩; omega
  · rintro ⟨h1, h2⟩; exact ⟨x - d1, by omega, by omega⟩

theorem sorted_daterange (d1 d2 : Nat) : List.Sorted (· < ·) (daterange d1 d2) := by
  rw [daterange, daterangeGo_eq_range]
  exact (List.sorted_lt_range _).map _ (fun a b h => by omega)

theorem sorted_validDays (cfg : Config) : List.Sorted (· < ·) (validDays cfg) :=
  List.Pairwise.sublist (List.filter_sublist _) (sorted_daterange _ _)

theorem mem_validDays {cfg : Config} {d : Nat} :
    d ∈ validDays cfg ↔
      cfg.departStart ≤ d ∧ d ≤ cfg.departEnd ∧ weekday d ∈ cfg.departWeekdays := by
  simp [validDays, List.mem_filter, mem_daterange, and_assoc]

theorem length_flatMap_const {α β : Type} (f : α → List β) (k : Nat) :
    ∀ l : List α, (∀ a ∈ l, (f a).length = k) → (l.flatMap f).length = l.length * k
  | [], _ => by simp
  | a :: l, h => by
    simp only [List.flatMap_cons, List.length_append, List.length_cons,
      h a (List.mem_cons_self a l),
      length_flatMap_const f k l (fun b hb => h b (List.mem_cons_of_mem a hb))]
    ring

theorem length_enumerateQueries (cfg : Config) :
    (enumerateQueries cfg).length =
      cfg.origins.length * cfg.dests.length * (validDays cfg).length := by
  rw [enumerateQueries, length_flatMap_const _ (cfg.dests.length * (validDays cfg).length),
    Nat.mul_assoc]
  intro o _
  rw [length_flatMap_const _ (validDays cfg).length]
  intro c _
  exact List.length_map _ _

theorem mem_enumerateQueries {cfg : Config} {q : SearchQuery} (hq : q ∈ enumerateQueries cfg) :
    q.origin ∈ cfg.origins ∧ q.dest ∈ cfg.dests ∧ q.depart ∈ validDays cfg ∧
      q.ret = q.depart + cfg.tripLength := by
  simp only [enumerateQueries, List.mem_flatMap, List.mem_map] at hq
  obtain ⟨o, ho, c, hc, d, hd, rfl⟩ := hq
  exact ⟨ho, hc, hd, rfl⟩

/-! ### The offer selector is `argmin` on the qualifying offers -/

/-- The price-qualification test of line 162 as a Boolean predicate. -/
def qualifies (cfg : Config) (p : ℚ × String) : Bool := decide (p.1 ≤ localCeiling cfg)

theorem consider_eq_argAux (cfg : Config) (best : Option (ℚ × String)) (p : ℚ × String) :
    consider cfg best p.1 p.2 =
      if qualifies cfg p then
        List.argAux (fun b c : ℚ × String => b.1 < c.1) best p
      else best := by
  cases best <;> simp [consider, List.argAux, qualifies]

theorem foldl_guard {α β : Type} (g : β → α → β) (p : α → Bool) :
    ∀ (l : List α) (acc : β),
      l.foldl (fun b x => if p x then g b x else b) acc = (l.filter p).foldl g acc
  | [], _ => rfl
  | x :: l, acc => by
    cases hp : p x <;> simp [hp, foldl_guard g p l]

theorem selectorFold_eq_argmin (cfg : Config) (offers : List (ℚ × String)) :
    selectorFold cfg offers = List.argmin Prod.fst (offers.filter (qualifies cfg)) := by
  rw [selectorFold, List.argmin, ← foldl_guard]
  exact List.foldl_ext _ _ _ fun b p _ => consider_eq_argAux cfg b p

/-! ### Budget bookkeeping invariants of the scan driver -/

/-- Number of dispatched queries whose fetch returned (those are exactly the ones
that decremented `requests_left`). -/
def successCount (st : RunState) : Nat := (st.dispatched.filter (fun qb => qb.2)).length

theorem processQuery_fail {cfg : Config} {fetch : Fetch} {st : RunState} {q : SearchQuery}
    (h : fetch q = .error ()) :
    processQuery cfg fetch st q =
      .ok { requestsLeft := st.requestsLeft, best := st.best,
            dispatched := st.dispatched ++ [(q, false)] } := by
  simp [processQuery, h]

theorem processQuery_conserve {cfg : Config} {fetch : Fetch} {st st' : RunState}
    {q : SearchQuery} (h : processQuery cfg fetch st q = .ok st') :
    st'.requestsLeft + (successCount st' : ℤ) = st.requestsLeft + (successCount st : ℤ) ∧
    (0 ≤ st.requestsLeft → st.requestsLeft ≠ 0 → 0 ≤ st'.requestsLeft) := by
  rw [processQuery] at h
  split at h
  · cases h
    exact ⟨by simp [successCount, List.filter_append], fun h0 _ => by simpa using h0⟩
  · split at h
    · cases h
    · cases h
      constructor
      · simp [successCount, List.filter_append]
      · intro h0 hne
        simp only []
        omega

theorem scanDates_conserve (cfg : Config) (fetch : Fetch) (origin dest : String) :
    ∀ (ds : List Nat) (st st' : RunState),
      scanDates cfg fetch origin dest st ds = .ok st' →
      st'.requestsLeft + (successCount st' : ℤ) = st.requestsLeft + (successCount st : ℤ) ∧
      (0 ≤ st.requestsLeft → 0 ≤ st'.requestsLeft)
  | [], st, st' => by
    intro h
    simp only [scanDates] at h
    cases h
    exact ⟨rfl, fun h0 => h0⟩
  | d :: ds, st, st' => by
    intro h
    simp only [scanDates] at h
    split at h
    · split at h
      · cases h; exact ⟨rfl, fun h0 => h0⟩
      · rename_i hbudget
        split at h
        · cases h
        · rename_i st1 hpq
          obtain ⟨ih1, ih2⟩ := scanDates_conserve cfg fetch origin dest ds st1 st' h
          obtain ⟨hc1, hc2⟩ := processQuery_conserve hpq
          exact ⟨by omega, fun h0 => ih2 (hc2 h0 (by omega))⟩
    · exact scanDates_conserve cfg fetch origin dest ds st st' h

theorem scanDests_conserve (cfg : Config) (fetch : Fetch) (origin : String) :
    ∀ (cs : List String) (st st' : RunState),
      scanDests cfg fetch origin st cs = .ok st' →
      st'.requestsLeft + (successCount st' : ℤ) = st.requestsLeft + (successCount st : ℤ) ∧
      (0 ≤ st.requestsLeft → 0 ≤ st'.requestsLeft)
  | [], st, st' => by
    intro h
    simp only [scanDests] at h
    cases h
    exact ⟨rfl, fun h0 => h0⟩
  | c :: cs, st, st' => by
    intro h
    simp only [scanDests] at h
    split at h
    · cases h
    · rename_i st1 hsd
      obtain ⟨hc1, hc2⟩ := scanDates_conserve cfg fetch origin c _ st st1 hsd
      split at h
      · cases h; exact ⟨hc1, hc2⟩
      · obtain ⟨ih1, ih2⟩ := scanDests_conserve cfg fetch origin cs st1 st' h
        exact ⟨by omega, fun h0 => ih2 (hc2 h0)⟩

theorem scanOrigins_conserve (cfg : Config) (fetch : Fetch) :
    ∀ (os : List String) (st st' : RunState),
      scanOrigins cfg fetch st os = .ok st' →
      st'.requestsLeft + (successCount st' : ℤ) = st.requestsLeft + (successCount st : ℤ) ∧
      (0 ≤ st.requestsLeft → 0 ≤ st'.requestsLeft)
  | [], st, st' => by
    intro h
    simp only [scanOrigins] at h
    cases h
    exact ⟨rfl, fun h0 => h0⟩
  | o :: os, st, st' => by
    intro h
    simp only [scanOrigins] at h
    split at h
    · cases h
    · rename_i st1 hsd
      obtain ⟨hc1, hc2⟩ := scanDests_conserve cfg fetch o cfg.dests st st1 hsd
      obtain ⟨ih1, ih2⟩ := scanOrigins_conserve cfg fetch os st1 st' h
      exact ⟨by omega, fun h0 => ih2 (hc2 h0)⟩

/-- Once the budget is exhausted, the remaining walk dispatches nothing and
changes nothing (the date loop breaks at its first unfiltered day, the
destination loop breaks after it, and later origins repeat the same pattern). -/
theorem scanDates_exhausted (cfg : Config) (fetch : Fetch) (origin dest : String) :
    ∀ (ds : List Nat) (st : RunState), st.requestsLeft ≤ 0 →
      scanDates cfg fetch origin dest st ds = .ok st
  | [], st => fun _ => rfl
  | d :: ds, st => by
    intro h0
    simp only [scanDates]
    split
    · simp [h0]
    · exact scanDates_exhausted cfg fetch origin dest ds st h0

theorem scanDests_exhausted (cfg : Config) (fetch : Fetch) (origin : String) :
    ∀ (cs : List String) (st : RunState), st.requestsLeft ≤ 0 →
      scanDests cfg fetch origin st cs = .ok st
  | [], st => fun _ => rfl
  | c :: cs, st => by
    intro h0
    simp only [scanDests]
    rw [scanDates_exhausted cfg fetch origin c _ st h0]
    simp [if_pos h0]

theorem scanOrigins_exhausted (cfg : Config) (fetch : Fetch) :
    ∀ (os : List String) (st : RunState), st.requestsLeft ≤ 0 →
      scanOrigins cfg fetch st os = .ok st
  | [], st => fun _ => rfl
  | o :: os, st => by
    intro h0
    simp only [scanOrigins]
    rw [scanDests_exhausted cfg fetch o cfg.dests st h0]
    exact scanOrigins_exhausted cfg fetch os st h0

/-! ### The best offer is untouched when every parsed offer exceeds the ceiling -/

theorem processOffer_nonqual {cfg : Config} {origin dest : String}
    {best : Option (ℚ × String)} {o : RawOffer}
    (ht : ∀ t, o.price? = some (some t) → ¬t ≤ localCeiling cfg) :
    processOffer cfg origin dest best o = .ok best := by
  rw [processOffer]
  split
  · rename_i total hp
    rw [if_neg (ht total hp)]
  · rfl

theorem processOffers_nonqual {cfg : Config} {origin dest : String} :
    ∀ (offers : List RawOffer) (best : Option (ℚ × String)),
      (∀ o ∈ offers, ∀ t, o.price? = some (some t) → ¬t ≤ localCeiling cfg) →
      processOffers cfg origin dest best offers = .ok best
  | [], _, _ => rfl
  | o :: os, best, h => by
    rw [processOffers, processOffer_nonqual (h o (List.mem_cons_self o os))]
    exact processOffers_nonqual os best fun o' ho' => h o' (List.mem_cons_of_mem o ho')

/-- Hypothesis: every offer any fetch can return has a price above the ceiling. -/
def AllAboveCeiling (cfg : Config) (fetch : Fetch) : Prop :=
  ∀ q offers, fetch q = .ok offers →
    ∀ o ∈ offers, ∀ t, o.price? = some (some t) → ¬t ≤ localCeiling cfg

theorem processQuery_nonqual {cfg : Config} {fetch : Fetch} {st st' : RunState}
    {q : SearchQuery} (H : AllAboveCeiling cfg fetch)
    (h : processQuery cfg fetch st q = .ok st') : st'.best = st.best := by
  rw [processQuery] at h
  split at h
  · cases h; rfl
  · rename_i offers hf
    have hno : processOffers cfg q.origin q.dest st.best offers = .ok st.best :=
      processOffers_nonqual offers st.best (H q offers hf)
    split at h
    · rename_i e hpe
      rw [hno] at hpe
      cases hpe
    · rename_i best' hpo
      rw [hno] at hpo
      cases hpo
      cases h
      rfl

theorem scanDates_nonqual {cfg : Config} {fetch : Fetch} {origin dest : String}
    (H : AllAboveCeiling cfg fetch) :
    ∀ (ds : List Nat) (st st' : RunState),
      scanDates cfg fetch origin dest st ds = .ok st' → st'.best = st.best
  | [], st, st' => by
    intro h; simp only [scanDates] at h; cases h; rfl
  | d :: ds, st, st' => by
    intro h
    simp only [scanDates] at h
    split at h
    · split at h
      · cases h; rfl
      · split at h
        · cases h
        · rename_i st1 hpq
          rw [scanDates_nonqual H ds st1 st' h, processQuery_nonqual H hpq]
    · exact scanDates_nonqual H ds st st' h

theorem scanDests_nonqual {cfg : Config} {fetch : Fetch} {origin : String}
    (H : AllAboveCeiling cfg fetch) :
    ∀ (cs : List String) (st st' : RunState),
      scanDests cfg fetch origin st cs = .ok st' → st'.best = st.best
  | [], st, st' => by
    intro h; simp only [scanDests] at h; cases h; rfl
  | c :: cs, st, st' => by
    intro h
    simp only [scanDests] at h
    split at h
    · cases h
    · rename_i st1 hsd
      have h1 := scanDates_nonqual H _ st st1 hsd
      split at h
      · cases h; exact h1
      · rw [scanDests_nonqual H cs st1 st' h, h1]

theorem scanOrigins_nonqual {cfg : Config} {fetch : Fetch}
    (H : AllAboveCeiling cfg fetch) :
    ∀ (os : List String) (st st' : RunState),
      scanOrigins cfg fetch st os = .ok st' → st'.best = st.best
  | [], st, st' => by
    intro h; simp only [scanOrigins] at h; cases h; rfl
  | o :: os, st, st' => by
    intro h
    simp only [scanOrigins] at h
    split at h
    · cases h
    · rename_i st1 hsd
      rw [scanOrigins_nonqual H os st1 st' h, scanDests_nonqual H cfg.dests st st1 hsd]

/-! ### The per-offer loop is the selector fold over the parsed offers -/

/-- The (price, summary) pairs that lines 157–163 extract from a raw offer list:
offers whose price is missing or unparseable are dropped; for the rest the
summary is as `summarize_offer` renders it (offers whose summarization would
raise are dropped here — when one of them qualifies, `processOffers` raises
instead of producing a result, so the conditional glue below is still exact). -/
def parsedPairs (cfg : Config) (origin dest : String) (offers : List RawOffer) :
    List (ℚ × String) :=
  offers.filterMap fun o =>
    match o.price? with
    | some (some t) =>
      match summarize_offer cfg o origin dest with
      | .ok s => some (t, s)
      | .error _ => none
    | _ => none

theorem parsedPairs_cons_skip {cfg : Config} {origin dest : String} {o : RawOffer}
    {os : List RawOffer} (h : ∀ t, o.price? ≠ some (some t)) :
    parsedPairs cfg origin dest (o :: os) = parsedPairs cfg origin dest os := by
  cases hpp : o.price? with
  | none => simp [parsedPairs, List.filterMap_cons, hpp]
  | some v => cases v with
    | none => simp [parsedPairs, List.filterMap_cons, hpp]
    | some t => exact absurd hpp (h t)

theorem parsedPairs_cons_err {cfg : Config} {origin dest : String} {o : RawOffer}
    {os : List RawOffer} {t : ℚ} {e : Unit} (hp : o.price? = some (some t))
    (hs : summarize_offer cfg o origin dest = .error e) :
    parsedPairs cfg origin dest (o :: os) = parsedPairs cfg origin dest os := by
  simp [parsedPairs, List.filterMap_cons, hp, hs]

theorem parsedPairs_cons_ok {cfg : Config} {origin dest : String} {o : RawOffer}
    {os : List RawOffer} {t : ℚ} {s : String} (hp : o.price? = some (some t))
    (hs : summarize_offer cfg o origin dest = .ok s) :
    parsedPairs cfg origin dest (o :: os) = (t, s) :: parsedPairs cfg origin dest os := by
  simp [parsedPairs, List.filterMap_cons, hp, hs]

theorem processOffers_eq_fold {cfg : Config} {origin dest : String} :
    ∀ (offers : List RawOffer) (best best' : Option (ℚ × String)),
      processOffers cfg origin dest best offers = .ok best' →
      best' = (parsedPairs cfg origin dest offers).foldl
        (fun b p => consider cfg b p.1 p.2) best
  | [], best, best' => by
    intro h; cases h; rfl
  | o :: os, best, best' => by
    intro h
    rw [processOffers] at h
    split at h
    · cases h
    · rename_i b1 hpo
      have ih := processOffers_eq_fold os b1 best' h
      rw [processOffer] at hpo
      split at hpo
      · rename_i total hp
        split at hpo
        · rename_i hle
          split at hpo
          · cases hpo
          · rename_i s hs
            cases hpo
            rw [parsedPairs_cons_ok hp hs, List.foldl_cons]
            exact ih
        · rename_i hnle
          cases hpo
          cases hs : summarize_offer cfg o origin dest with
          | ok s =>
            rw [parsedPairs_cons_ok hp hs, List.foldl_cons]
            rw [show consider cfg best total s = best from by
              simp [consider, if_neg hnle]]
            exact ih
          | error e =>
            rw [parsedPairs_cons_err hp hs]
            exact ih
      · rename_i hp
        cases hpo
        rw [parsedPairs_cons_skip fun t ht => hp t ht]
        exact ih

/-! ### With enough budget and successful fetches, the driver dispatches exactly
the enumerated sequence, in order -/

/-- The weekday-filtered sublist of a day list (the days of `ds` that are not
skipped by the `continue` of line 132). -/
def wdFilter (cfg : Config) (ds : List Nat) : List Nat :=
  ds.filter (fun d => decide (weekday d ∈ cfg.departWeekdays))

theorem validDays_eq_wdFilter (cfg : Config) :
    validDays cfg = wdFilter cfg (daterange cfg.departStart cfg.departEnd) := rfl

/-- The dispatch trace the date loop produces for one (origin, destination) pair. -/
def dispatchBlock (cfg : Config) (origin dest : String) : List (SearchQuery × Bool) :=
  (validDays cfg).map fun d => (⟨origin, dest, d, d + cfg.tripLength⟩, true)

theorem processQuery_okEmpty {cfg : Config} {fetch : Fetch} {st : RunState}
    {q : SearchQuery} (h : fetch q = .ok []) :
    processQuery cfg fetch st q =
      .ok ⟨st.requestsLeft - 1, st.best, st.dispatched ++ [(q, true)]⟩ := by
  simp [processQuery, h, processOffers]

theorem scanDates_trace {cfg : Config} {fetch : Fetch} {origin dest : String}
    (hf : ∀ q, fetch q = .ok []) :
    ∀ (ds : List Nat) (st : RunState),
      ((wdFilter cfg ds).length : ℤ) ≤ st.requestsLeft →
      scanDates cfg fetch origin dest st ds =
        .ok ⟨st.requestsLeft - (wdFilter cfg ds).length, st.best,
          st.dispatched ++ (wdFilter cfg ds).map
            (fun d => (⟨origin, dest, d, d + cfg.tripLength⟩, true))⟩
  | [], st => by
    intro _
    simp [scanDates, wdFilter]
  | d :: ds, st => by
    intro hb
    simp only [scanDates]
    by_cases hwd : weekday d ∈ cfg.departWeekdays
    · have hfil : wdFilter cfg (d :: ds) = d :: wdFilter cfg ds := by
        simp [wdFilter, List.filter_cons, hwd]
      rw [hfil] at hb
      rw [if_pos hwd, if_neg (by push_cast [List.length_cons] at hb; omega)]
      rw [processQuery_okEmpty (hf _)]
      dsimp only
      refine Eq.trans (scanDates_trace hf ds _ ?_) ?_
      · dsimp only
        push_cast [List.length_cons] at hb ⊢
        omega
      · rw [hfil]
        simp only [List.length_cons, List.map_cons, Except.ok.injEq, RunState.mk.injEq,
          List.append_assoc, List.singleton_append, true_and, and_true]
        push_cast
        ring
    · have hfil : wdFilter cfg (d :: ds) = wdFilter cfg ds := by
        simp [wdFilter, List.filter_cons, hwd]
      rw [hfil] at hb
      rw [if_neg hwd]
      rw [hfil]
      exact scanDates_trace hf ds st hb

theorem scanDests_trace {cfg : Config} {fetch : Fetch} {origin : String}
    (hf : ∀ q, fetch q = .ok []) :
    ∀ (cs : List String) (st : RunState),
      ((cs.length : ℤ) * ((validDays cfg).length : ℤ)) ≤ st.requestsLeft →
      scanDests cfg fetch origin st cs =
        .ok ⟨st.requestsLeft - (cs.length : ℤ) * ((validDays cfg).length : ℤ), st.best,
          st.dispatched ++ cs.flatMap (dispatchBlock cfg origin)⟩
  | [], st => by
    intro _
    simp [scanDests]
  | c :: cs, st => by
    intro hb
    have hcsnn : (0 : ℤ) ≤ (cs.length : ℤ) * ((validDays cfg).length : ℤ) :=
      mul_nonneg (by positivity) (by positivity)
    have hb2 : (cs.length : ℤ) * ((validDays cfg).length : ℤ) +
        ((validDays cfg).length : ℤ) ≤ st.requestsLeft := by
      push_cast [List.length_cons] at hb
      ring_nf at hb ⊢
      linarith
    simp only [scanDests]
    rw [scanDates_trace hf (daterange cfg.departStart cfg.departEnd) st
      (by rw [← validDays_eq_wdFilter]; linarith)]
    dsimp only
    rw [← validDays_eq_wdFilter]
    by_cases h0 : st.requestsLeft - ((validDays cfg).length : ℤ) ≤ 0
    · rw [if_pos h0]
      have hzero : (cs.length : ℤ) * ((validDays cfg).length : ℤ) = 0 := by linarith
      have hzeroNat : cs.length * (validDays cfg).length = 0 := by exact_mod_cast hzero
      have hnil : cs.flatMap (dispatchBlock cfg origin) = [] := by
        apply List.eq_nil_of_length_eq_zero
        rw [length_flatMap_const (dispatchBlock cfg origin) (validDays cfg).length cs
          (fun c' _ => List.length_map _ _)]
        exact hzeroNat
      simp only [List.flatMap_cons, hnil, List.append_nil, Except.ok.injEq,
        RunState.mk.injEq, true_and, and_true, dispatchBlock]
      try push_cast [List.length_cons]
      try linear_combination hzero
    · rw [if_neg h0]
      refine Eq.trans (scanDests_trace hf cs _ ?_) ?_
      · dsimp only
        linarith
      · simp only [List.flatMap_cons, Except.ok.injEq, RunState.mk.injEq,
          List.append_assoc, true_and, and_true, dispatchBlock]
        try push_cast [List.length_cons]
        try ring

theorem scanOrigins_trace {cfg : Config} {fetch : Fetch}
    (hf : ∀ q, fetch q = .ok []) :
    ∀ (os : List String) (st : RunState),
      ((os.length : ℤ) * ((cfg.dests.length : ℤ) * ((validDays cfg).length : ℤ))) ≤
        st.requestsLeft →
      scanOrigins cfg fetch st os =
        .ok ⟨st.requestsLeft -
            (os.length : ℤ) * ((cfg.dests.length : ℤ) * ((validDays cfg).length : ℤ)),
          st.best,
          st.dispatched ++ os.flatMap (fun o => cfg.dests.flatMap (dispatchBlock cfg o))⟩
  | [], st => by
    intro _
    simp [scanOrigins]
  | o :: os, st => by
    intro hb
    have hosnn : (0 : ℤ) ≤ (os.length : ℤ) *
        ((cfg.dests.length : ℤ) * ((validDays cfg).length : ℤ)) :=
      mul_nonneg (by positivity) (mul_nonneg (by positivity) (by positivity))
    have hb2 : (os.length : ℤ) * ((cfg.dests.length : ℤ) * ((validDays cfg).length : ℤ)) +
        (cfg.dests.length : ℤ) * ((validDays cfg).length : ℤ) ≤ st.requestsLeft := by
      push_cast [List.length_cons] at hb
      ring_nf at hb ⊢
      linarith
    have hMnn : (0 : ℤ) ≤ (cfg.dests.length : ℤ) * ((validDays cfg).length : ℤ) :=
      mul_nonneg (by positivity) (by positivity)
    simp only [scanOrigins]
    rw [scanDests_trace hf cfg.dests st (by linarith)]
    dsimp only
    refine Eq.trans (scanOrigins_trace hf os _ ?_) ?_
    · dsimp only
      linarith
    · simp only [List.flatMap_cons, Except.ok.injEq, RunState.mk.injEq,
        List.append_assoc, true_and, and_true]
      push_cast [List.length_cons]
      ring

theorem enumerateQueries_map_true (cfg : Config) :
    (enumerateQueries cfg).map (fun q => (q, true)) =
      cfg.origins.flatMap (fun o => cfg.dests.flatMap (dispatchBlock cfg o)) := by
  rw [enumerateQueries]
  simp only [List.map_flatMap, List.map_map]
  rfl

theorem main_run_ok_spec {cfg : Config} {fetch : Fetch} {out : RunOutcome}
    (h : main_run cfg fetch = .ok out) :
    scanOrigins cfg fetch ⟨cfg.maxRequestsPerRun, none, []⟩ cfg.origins = .ok out.state ∧
    out.alerts = (match out.state.best with
      | some b => [b.2]
      | none => []) ∧
    out.report = (match out.state.best with
      | some b => "ALERT: " ++ b.2
      | none => "No deals under threshold this run.") := by
  rw [main_run] at h
  split at h
  · cases h
  · rename_i st hs
    cases h
    exact ⟨hs, rfl, rfl⟩

theorem main_run_trace {cfg : Config} {fetch : Fetch} (hf : ∀ q, fetch q = .ok [])
    (hcap : ((enumerateQueries cfg).length : ℤ) ≤ cfg.maxRequestsPerRun) :
    main_run cfg fetch =
      .ok ⟨⟨cfg.maxRequestsPerRun - (enumerateQueries cfg).length, none,
          (enumerateQueries cfg).map (fun q => (q, true))⟩, [],
        "No deals under threshold this run."⟩ := by
  rw [main_run, scanOrigins_trace hf cfg.origins ⟨cfg.maxRequestsPerRun, none, []⟩
    (by rw [length_enumerateQueries] at hcap; push_cast at hcap ⊢
        ring_nf at hcap ⊢; linarith)]
  dsimp only
  simp only [Except.ok.injEq, RunOutcome.mk.injEq, RunState.mk.injEq, List.nil_append,
    enumerateQueries_map_true, true_and, and_true]
  try rw [length_enumerateQueries]
  try push_cast
  try ring

/-! ### The backoff loop of `search_flights` (lines 84–100) -/

/-- One upstream HTTP response, as the retry loop distinguishes them:
success (`r.ok`, carrying the parsed body), HTTP 429 (throttled), or another
non-success status. -/
inductive ApiResp (α : Type) where
  | ok (v : α)
  | throttled
  | err (status : Nat)
  deriving DecidableEq

/-- Observable outcome of the retry loop: the returned body or the raised
status, the sequence of sleeps performed (seconds), and the number of HTTP
attempts actually issued. -/
structure BackoffOut (α : Type) where
  result : Except Nat α
  waits : List Nat
  calls : Nat

/-- The loop `for attempt in range(4)` of `search_flights`, with `call i` the
response to attempt number `i` (0-based).  A 429 sleeps `2 ** attempt` and
retries; any other non-success raises its status; success returns immediately.
When the loop exhausts all attempts still throttled, the final
`r.raise_for_status()` raises the last 429. -/
def backoffGo {α : Type} (call : Nat → ApiResp α) : Nat → Nat → BackoffOut α
  | 0, _ => ⟨.error 429, [], 0⟩
  | fuel + 1, i =>
    match call i with
    | .ok v => ⟨.ok v, [], 1⟩
    | .err s => ⟨.error s, [], 1⟩
    | .throttled =>
      let rest := backoffGo call fuel (i + 1)
      ⟨rest.result, 2 ^ i :: rest.waits, rest.calls + 1⟩

/-- The whole retry wrapper of `search_flights`: at most 4 total attempts
(1 try + up to 3 retries), starting at attempt index 0. -/
def search_flights_retry {α : Type} (call : Nat → ApiResp α) : BackoffOut α :=
  backoffGo call 4 0

theorem backoffGo_calls_le {α : Type} (call : Nat → ApiResp α) :
    ∀ (fuel i : Nat), (backoffGo call fuel i).calls ≤ fuel
  | 0, _ => Nat.le_refl 0
  | fuel + 1, i => by
    rw [backoffGo]
    cases call i with
    | ok v => simp
    | err s => simp
    | throttled =>
      have := backoffGo_calls_le call fuel (i + 1)
      simpa using Nat.succ_le_succ this

theorem pow_range_shift (i k : Nat) :
    (List.range (k + 1)).map (fun t => 2 ^ (i + t)) =
      2 ^ i :: (List.range k).map (fun t => 2 ^ (i + 1 + t)) := by
  rw [List.range_succ_eq_map]
  simp only [List.map_cons, Nat.add_zero, List.map_map, List.cons.injEq, true_and]
  exact List.map_congr_left fun t _ => by simp only [Function.comp]; congr 1; omega

theorem backoffGo_throttled_start {α : Type} (call : Nat → ApiResp α) :
    ∀ (k fuel i : Nat), k ≤ fuel → (∀ j, j < k → call (i + j) = .throttled) →
      backoffGo call fuel i =
        ⟨(backoffGo call (fuel - k) (i + k)).result,
          ((List.range k).map fun t => 2 ^ (i + t)) ++ (backoffGo call (fuel - k) (i + k)).waits,
          (backoffGo call (fuel - k) (i + k)).calls + k⟩
  | 0, fuel, i, _, _ => by simp
  | k + 1, fuel + 1, i, hk, hth => by
    have h0 : call i = .throttled := by simpa using hth 0 (Nat.succ_pos k)
    have hfu : fuel + 1 - (k + 1) = fuel - k := by omega
    have hidx : i + 1 + k = i + (k + 1) := by omega
    rw [backoffGo, h0]
    simp only []
    rw [backoffGo_throttled_start call k fuel (i + 1) (Nat.le_of_succ_le_succ hk)
      (fun j hj => by
        rw [show i + 1 + j = i + (j + 1) from by omega]
        exact hth (j + 1) (by omega))]
    rw [hfu, hidx, pow_range_shift]
    simp only [BackoffOut.mk.injEq, List.cons_append, true_and, and_true]
    omega

/-! ### Truncation of the upstream `maxPrice` parameter -/

theorem pythonInt_floor_of_nonneg {q : ℚ} (h : 0 ≤ q) : pythonInt q = ⌊q⌋ := if_pos h

theorem floor_lt_of_den_ne_one {q : ℚ} (hden : q.den ≠ 1) : ((⌊q⌋ : ℤ) : ℚ) < q := by
  refine lt_of_le_of_ne (Int.floor_le q) fun heq => hden ?_
  rw [← heq]
  exact Rat.den_intCast _

/-! ## Claim theorems -/

/-! ### C1: budget decrement per dispatched query -/

/-- A config with a single enumerated query (one origin, one destination, one
window day whose weekday, Friday, is allowed) and budget 5. -/
def cfgOneQuery : Config :=
  { origins := ["AUS"], dests := ["TYO"], adults := 1, currency := "USD",
    maxPricePerPax := 1000, tripLength := 14, departStart := 5, departEnd := 5,
    departWeekdays := {4}, maxRequestsPerRun := 5 }

/-- A fetch oracle for which every upstream call raises (`UpstreamError`). -/
def failFetch : Fetch := fun _ => .error ()

/-- C1 counterexample: the claim says the budget is decremented exactly once per
dispatched query "whether the fetch succeeds or fails with UpstreamError".  In
the code the decrement (line 147) sits after the `except: continue` (line 145),
so a dispatched query that fails leaves `requests_left` untouched: with budget 5
and one dispatched, failing query, the final budget is still 5, not 4. -/
theorem budget_kept_on_failed_dispatch_cex :
    main_run cfgOneQuery failFetch =
      .ok ⟨⟨5, none, [(⟨"AUS", "TYO", 5, 19⟩, false)]⟩, [],
        "No deals under threshold this run."⟩ ∧
    cfgOneQuery.maxRequestsPerRun = 5 :=
  ⟨rfl, rfl⟩

/-- C1 (amended): the Scan Driver decrements RunBudget exactly once per
dispatched query whose fetch succeeds; a query that fails with UpstreamError is
dispatched but does not decrement the budget; backoff retries inside one query
cause no extra decrements (the budget moves only with the per-query success
count). -/
theorem budget_decrements_once_per_successful_query (cfg : Config) (fetch : Fetch)
    (out : RunOutcome) (h : main_run cfg fetch = .ok out) :
    out.state.requestsLeft = cfg.maxRequestsPerRun - (successCount out.state : ℤ) := by
  obtain ⟨hs, -, -⟩ := main_run_ok_spec h
  have hc := (scanOrigins_conserve cfg fetch cfg.origins _ _ hs).1
  simp only [successCount, List.filter_nil, List.length_nil, Nat.cast_zero] at hc ⊢
  omega

/-- A two-query config (two window days, both allowed weekdays) with budget 5. -/
def cfgTwoQueries : Config :=
  { origins := ["AUS"], dests := ["TYO"], adults := 1, currency := "USD",
    maxPricePerPax := 1000, tripLength := 14, departStart := 5, departEnd := 6,
    departWeekdays := {4, 5}, maxRequestsPerRun := 5 }

/-- A fetch oracle that raises on the day-5 query and returns zero offers
otherwise. -/
def mixedFetch : Fetch := fun q => if q.depart = 5 then .error () else .ok []

/-- The outcome of running `cfgTwoQueries` against `mixedFetch`: one failed and
one successful dispatch, with only the success consuming budget. -/
def outMixed : RunOutcome :=
  ⟨⟨4, none, [(⟨"AUS", "TYO", 5, 19⟩, false), (⟨"AUS", "TYO", 6, 20⟩, true)]⟩, [],
    "No deals under threshold this run."⟩

/-- C1 witness: a concrete run with one failed and one successful dispatch ends
with budget 4 = 5 − 1, as the amended claim computes. -/
theorem budget_decrements_once_per_successful_query_witness :
    main_run cfgTwoQueries mixedFetch = .ok outMixed ∧
    outMixed.state.requestsLeft =
      cfgTwoQueries.maxRequestsPerRun - (successCount outMixed.state : ℤ) :=
  ⟨rfl, budget_decrements_once_per_successful_query cfgTwoQueries mixedFetch outMixed rfl⟩

/-! ### C2: malformed offers inside a successful response -/

/-- An offer whose `price` field is missing entirely (`KeyError` in `float(...)`). -/
def offerNoPrice : RawOffer := ⟨none, []⟩

/-- An offer whose price string does not parse (`ValueError` in `float(...)`). -/
def offerBadPrice : RawOffer := ⟨some none, []⟩

/-- A qualifying offer (900 ≤ ceiling) with no itinerary legs at all. -/
def offerNoItin : RawOffer := ⟨some (some 900), []⟩

/-- An above-ceiling offer with no itinerary legs. -/
def offerHighNoItin : RawOffer := ⟨some (some 9000), []⟩

/-- The config of `cfgOneQuery` with the script's default ceiling (5000/pax). -/
def cfgDefaultCeiling : Config :=
  { origins := ["AUS"], dests := ["TYO"], adults := 1, currency := "USD",
    maxPricePerPax := 5000, tripLength := 14, departStart := 5, departEnd := 5,
    departWeekdays := {4}, maxRequestsPerRun := 80 }

/-- C2: offers with a missing or unparseable price, and above-ceiling offers
with missing itineraries, are indeed silently skipped (first conjunct: the run
completes).  But a qualifying offer with missing itinerary legs is NOT skipped:
`summarize_offer` is called outside the `try/except` of lines 158–161, its
`IndexError` is uncaught, and the whole run aborts (second conjunct), which
contradicts the claim that such an offer "never aborts the call or the run". -/
theorem malformed_offer_handling :
    main_run cfgDefaultCeiling
        (fun _ => .ok [offerNoPrice, offerBadPrice, offerHighNoItin]) =
      .ok ⟨⟨79, none, [(⟨"AUS", "TYO", 5, 19⟩, true)]⟩, [],
        "No deals under threshold this run."⟩ ∧
    main_run cfgDefaultCeiling
        (fun _ => .ok [offerNoPrice, offerBadPrice, offerNoItin]) = .error () :=
  ⟨rfl, rfl⟩

/-! ### C3: budget invariants -/

/-- C3 counterexample: with budget 1 and two enumerated queries, the claim says
at most one query is dispatched and the second is never called.  When the first
query fails, it does not consume the budget (see C1), so the second query IS
dispatched: the run below dispatches 2 > 1 queries. -/
theorem cap_exceeded_by_failed_dispatches_cex :
    main_run { cfgTwoQueries with maxRequestsPerRun := 1 } failFetch =
      .ok ⟨⟨1, none, [(⟨"AUS", "TYO", 5, 19⟩, false), (⟨"AUS", "TYO", 6, 20⟩, false)]⟩,
        [], "No deals under threshold this run."⟩ ∧
    ({ cfgTwoQueries with maxRequestsPerRun := 1 } : Config).maxRequestsPerRun = 1 :=
  ⟨rfl, rfl⟩

/-- C3 (amended): starting from a nonnegative cap, the budget never becomes
negative; at most `cap` SUCCESSFUL queries are dispatched (failed dispatches do
not count against the budget and can push the total dispatched past the cap);
and once the budget is exhausted the rest of the walk dispatches nothing — the
remaining scan is a no-op on the state. -/
theorem budget_invariants (cfg : Config) (fetch : Fetch) (out : RunOutcome)
    (hcap : 0 ≤ cfg.maxRequestsPerRun) (h : main_run cfg fetch = .ok out) :
    0 ≤ out.state.requestsLeft ∧
    (successCount out.state : ℤ) ≤ cfg.maxRequestsPerRun ∧
    (∀ (st : RunState) (os : List String), st.requestsLeft ≤ 0 →
      scanOrigins cfg fetch st os = .ok st) := by
  obtain ⟨hs, -, -⟩ := main_run_ok_spec h
  have hc := scanOrigins_conserve cfg fetch cfg.origins _ _ hs
  have h1 := hc.2 hcap
  have h2 := hc.1
  refine ⟨h1, ?_, fun st os h0 => scanOrigins_exhausted cfg fetch os st h0⟩
  simp only [successCount, List.filter_nil, List.length_nil, Nat.cast_zero] at h2 ⊢
  omega

/-- Running `cfgTwoQueries` with budget 1: the first query succeeds and exhausts the
budget, so the second is never dispatched. -/
def outBudgetOne : RunOutcome :=
  ⟨⟨0, none, [(⟨"AUS", "TYO", 5, 19⟩, true)]⟩, [], "No deals under threshold this run."⟩

/-- C3 witness: with budget 1, two enumerated queries and a succeeding fetch,
only the first query is dispatched (the claim's scenario, in the case the first
dispatch succeeds), and the amended invariants hold. -/
theorem budget_invariants_witness :
    main_run { cfgTwoQueries with maxRequestsPerRun := 1 } (fun _ => .ok []) =
      .ok outBudgetOne ∧
    0 ≤ outBudgetOne.state.requestsLeft ∧
    (successCount outBudgetOne.state : ℤ) ≤
      ({ cfgTwoQueries with maxRequestsPerRun := 1 } : Config).maxRequestsPerRun ∧
    outBudgetOne.state.dispatched = [(⟨"AUS", "TYO", 5, 19⟩, true)] := by
  have h := budget_invariants { cfgTwoQueries with maxRequestsPerRun := 1 }
    (fun _ => .ok []) outBudgetOne (by decide) rfl
  exact ⟨rfl, h.1, h.2.1, rfl⟩

/-! ### C7: a failed query is logged and skipped -/

/-- C7: when the fetch for a query raises `UpstreamError`, the driver continues:
the query body returns normally (no abort), with `requests_left` and `best`
unchanged and only the dispatch trace extended; and in the date loop the walk
proceeds to the remaining days with exactly that state. -/
theorem failed_query_is_skipped (cfg : Config) (fetch : Fetch) (st : RunState)
    (q : SearchQuery) (hq : fetch q = .error ()) :
    processQuery cfg fetch st q =
      .ok ⟨st.requestsLeft, st.best, st.dispatched ++ [(q, false)]⟩ ∧
    (∀ (origin dest : String) (d : Nat) (ds : List Nat),
      weekday d ∈ cfg.departWeekdays → ¬st.requestsLeft ≤ 0 →
      q = ⟨origin, dest, d, d + cfg.tripLength⟩ →
      scanDates cfg fetch origin dest st (d :: ds) =
        scanDates cfg fetch origin dest
          ⟨st.requestsLeft, st.best, st.dispatched ++ [(q, false)]⟩ ds) := by
  refine ⟨processQuery_fail hq, fun origin dest d ds hwd h0 hqe => ?_⟩
  simp only [scanDates, if_pos hwd, if_neg h0, ← hqe, processQuery_fail hq]

/-- C7 witness: a concrete failing query in a two-day window; the driver carries
the unchanged state to the second day and finishes the run without aborting. -/
theorem failed_query_is_skipped_witness :
    processQuery cfgTwoQueries failFetch ⟨5, none, []⟩ ⟨"AUS", "TYO", 5, 19⟩ =
      .ok ⟨5, none, [(⟨"AUS", "TYO", 5, 19⟩, false)]⟩ ∧
    scanDates cfgTwoQueries failFetch "AUS" "TYO" ⟨5, none, []⟩ [5, 6] =
      scanDates cfgTwoQueries failFetch "AUS" "TYO"
        ⟨5, none, [(⟨"AUS", "TYO", 5, 19⟩, false)]⟩ [6] := by
  have h := failed_query_is_skipped cfgTwoQueries failFetch ⟨5, none, []⟩
    ⟨"AUS", "TYO", 5, 19⟩ rfl
  exact ⟨h.1, h.2 "AUS" "TYO" 5 [6] (by decide) (by decide) rfl⟩

/-! ### C4: the final best offer is the first-seen minimum qualifying offer -/

/-- C4: the selector fold of lines 157–165 computes `argmin` by price over the
qualifying (price ≤ ceiling) offers, keeping the first seen on ties: whenever it
returns an offer, that offer is in the list, qualifies, has minimal price among
qualifying offers, and among equal-priced qualifying offers it is the earliest;
it returns nothing exactly when no offer qualifies; and the raw per-offer loop
`processOffers` is this very fold over the parsed (price, summary) pairs. -/
theorem best_offer_first_seen_minimum (cfg : Config) (offers : List (ℚ × String)) :
    selectorFold cfg offers = List.argmin Prod.fst (offers.filter (qualifies cfg)) ∧
    (∀ p, selectorFold cfg offers = some p →
      p ∈ offers ∧ p.1 ≤ localCeiling cfg ∧
      (∀ r ∈ offers, r.1 ≤ localCeiling cfg → p.1 ≤ r.1) ∧
      (∀ r ∈ offers, r.1 ≤ localCeiling cfg → r.1 ≤ p.1 →
        @List.indexOf _ instBEqOfDecidableEq p (offers.filter (qualifies cfg)) ≤
          @List.indexOf _ instBEqOfDecidableEq r (offers.filter (qualifies cfg)))) ∧
    (selectorFold cfg offers = none ↔ ∀ r ∈ offers, ¬r.1 ≤ localCeiling cfg) ∧
    (∀ (origin dest : String) (raw : List RawOffer) (best best' : Option (ℚ × String)),
      processOffers cfg origin dest best raw = .ok best' →
      best' = (parsedPairs cfg origin dest raw).foldl
        (fun b p => consider cfg b p.1 p.2) best) := by
  have hrw := selectorFold_eq_argmin cfg offers
  refine ⟨hrw, ?_, ?_,
    fun origin dest raw best best' h => processOffers_eq_fold raw best best' h⟩
  · intro p hp
    rw [hrw] at hp
    have hpm : p ∈ List.argmin Prod.fst (offers.filter (qualifies cfg)) := hp
    have hmem := List.mem_filter.1 (List.argmin_mem hpm)
    refine ⟨hmem.1, by simpa [qualifies] using hmem.2, fun r hr hrle => ?_,
      fun r hr hrle hrpe => ?_⟩
    · exact List.le_of_mem_argmin (List.mem_filter.2 ⟨hr, by simp [qualifies, hrle]⟩) hpm
    · exact List.index_of_argmin hpm (List.mem_filter.2 ⟨hr, by simp [qualifies, hrle]⟩) hrpe
  · rw [hrw, List.argmin_eq_none, List.filter_eq_nil_iff]
    constructor
    · intro hno r hr hle
      exact hno r hr (by simp [qualifies, hle])
    · intro hno r hr hq
      exact hno r hr (by simpa [qualifies] using hq)

/-- C4 witness: the spec's example — prices [1200, 900, 950] under ceiling
1000 × 1 — selects the 900 offer, which is a member, qualifies, and is minimal
among qualifying offers. -/
theorem best_offer_first_seen_minimum_witness :
    selectorFold cfgOneQuery [(1200, "a"), (900, "b"), (950, "c")] = some (900, "b") ∧
    ((900 : ℚ), "b") ∈ [((1200 : ℚ), "a"), (900, "b"), (950, "c")] ∧
    (900 : ℚ) ≤ localCeiling cfgOneQuery ∧
    (∀ r ∈ [((1200 : ℚ), "a"), (900, "b"), (950, "c")],
      r.1 ≤ localCeiling cfgOneQuery → (900 : ℚ) ≤ r.1) := by
  have h := (best_offer_first_seen_minimum cfgOneQuery
    [(1200, "a"), (900, "b"), (950, "c")]).2.1 (900, "b") rfl
  exact ⟨rfl, h.1, h.2.1, h.2.2.1⟩

/-! ### C9: the selector is order-independent on price -/

/-- C9: for any two permutations of the same multiset of (price, summary)
offers and any configuration, the selector fold produces best offers of equal
price — the minimum qualifying price (the chosen summary may differ, tie-broken
first-seen in the order fed). -/
theorem selector_order_invariant (cfg : Config) (l₁ l₂ : List (ℚ × String))
    (hperm : l₁.Perm l₂) :
    (selectorFold cfg l₁).map Prod.fst = (selectorFold cfg l₂).map Prod.fst := by
  rw [selectorFold_eq_argmin, selectorFold_eq_argmin]
  have hq : (l₁.filter (qualifies cfg)).Perm (l₂.filter (qualifies cfg)) :=
    hperm.filter _
  cases h₁ : List.argmin Prod.fst (l₁.filter (qualifies cfg)) with
  | none =>
    have hn1 : l₁.filter (qualifies cfg) = [] := List.argmin_eq_none.1 h₁
    rw [hn1] at hq
    have hn2 : l₂.filter (qualifies cfg) = [] := hq.symm.eq_nil
    rw [hn2, List.argmin_nil]
  | some p₁ =>
    cases h₂ : List.argmin Prod.fst (l₂.filter (qualifies cfg)) with
    | none =>
      have hn2 : l₂.filter (qualifies cfg) = [] := List.argmin_eq_none.1 h₂
      rw [hn2] at hq
      rw [hq.eq_nil, List.argmin_nil] at h₁
      cases h₁
    | some p₂ =>
      have hm₁ : p₁ ∈ List.argmin Prod.fst (l₁.filter (qualifies cfg)) := h₁
      have hm₂ : p₂ ∈ List.argmin Prod.fst (l₂.filter (qualifies cfg)) := h₂
      have le1 : p₁.1 ≤ p₂.1 :=
        List.le_of_mem_argmin (hq.mem_iff.2 (List.argmin_mem hm₂)) hm₁
      have le2 : p₂.1 ≤ p₁.1 :=
        List.le_of_mem_argmin (hq.mem_iff.1 (List.argmin_mem hm₁)) hm₂
      show some p₁.1 = some p₂.1
      exact congrArg some (le_antisymm le1 le2)

/-- C9 witness: swapping the first two offers of the spec's example changes
which element is first-seen but not the selected price, 900. -/
theorem selector_order_invariant_witness :
    (selectorFold cfgOneQuery [(1200, "a"), (900, "b"), (950, "c")]).map Prod.fst =
      (selectorFold cfgOneQuery [(900, "b"), (1200, "a"), (950, "c")]).map Prod.fst ∧
    (selectorFold cfgOneQuery [(900, "b"), (1200, "a"), (950, "c")]).map Prod.fst =
      some 900 :=
  ⟨selector_order_invariant cfgOneQuery _ _
    (List.Perm.swap (900, "b") (1200, "a") [(950, "c")]), by decide⟩

/-! ### C5: shape and order of the enumerated query sequence -/

/-- C5: the enumeration has length |origins| × |destinations| × |valid days|,
the valid days are exactly the window days whose weekday is allowed, listed in
strictly ascending order, every query's return date is depart + tripLength, and
— operationally — with every fetch succeeding and enough budget, the Scan
Driver dispatches exactly this sequence in this order (origins outermost, then
destinations, then dates). -/
theorem enumeration_shape (cfg : Config) :
    (enumerateQueries cfg).length =
      cfg.origins.length * cfg.dests.length * (validDays cfg).length ∧
    List.Sorted (· < ·) (validDays cfg) ∧
    (∀ d, d ∈ validDays cfg ↔
      cfg.departStart ≤ d ∧ d ≤ cfg.departEnd ∧ weekday d ∈ cfg.departWeekdays) ∧
    (∀ q ∈ enumerateQueries cfg, q.ret = q.depart + cfg.tripLength) ∧
    (∀ fetch : Fetch, (∀ q, fetch q = .ok []) →
      ((enumerateQueries cfg).length : ℤ) ≤ cfg.maxRequestsPerRun →
      main_run cfg fetch =
        .ok ⟨⟨cfg.maxRequestsPerRun - (enumerateQueries cfg).length, none,
            (enumerateQueries cfg).map (fun q => (q, true))⟩, [],
          "No deals under threshold this run."⟩) :=
  ⟨length_enumerateQueries cfg, sorted_validDays cfg, fun _ => mem_validDays,
   fun _ hq => (mem_enumerateQueries hq).2.2.2,
   fun _ hf hcap => main_run_trace hf hcap⟩

/-- Two origins, one destination, a week-long window containing two allowed
(Friday/Saturday) departure days. -/
def cfgEnum : Config :=
  { origins := ["AUS", "IAH"], dests := ["TYO"], adults := 1, currency := "USD",
    maxPricePerPax := 1000, tripLength := 14, departStart := 3, departEnd := 9,
    departWeekdays := {4, 5}, maxRequestsPerRun := 100 }

/-- C5 witness: for `cfgEnum`, the enumeration length is 2 × 1 × 2, the valid
days are sorted, and a full-budget run against an always-empty fetch dispatches
exactly the enumerated queries in order. -/
theorem enumeration_shape_witness :
    (enumerateQueries cfgEnum).length = 2 * 1 * 2 ∧
    List.Sorted (· < ·) (validDays cfgEnum) ∧
    main_run cfgEnum (fun _ => .ok []) =
      .ok ⟨⟨cfgEnum.maxRequestsPerRun - (enumerateQueries cfgEnum).length, none,
          (enumerateQueries cfgEnum).map (fun q => (q, true))⟩, [],
        "No deals under threshold this run."⟩ := by
  have h := enumeration_shape cfgEnum
  exact ⟨by decide, h.2.1, h.2.2.2.2 (fun _ => .ok []) (fun _ => rfl) (by decide)⟩

/-! ### C6: the backoff policy of `search_flights` -/

/-- C6: the retry loop issues at most 4 attempts; if the first `k < 4` attempts
are throttled and attempt `k` succeeds, the success is returned after waits of
2^0, …, 2^(k−1) seconds and k+1 total attempts; if all 4 attempts are
throttled, it fails with status 429 after waits [1, 2, 4, 8]; and a non-success
non-throttle status at attempt `k` raises that status immediately. -/
theorem backoff_policy {α : Type} (call : Nat → ApiResp α) :
    (search_flights_retry call).calls ≤ 4 ∧
    (∀ (k : Nat) (v : α), k < 4 → (∀ j, j < k → call j = .throttled) → call k = .ok v →
      search_flights_retry call = ⟨.ok v, (List.range k).map (fun i => 2 ^ i), k + 1⟩) ∧
    ((∀ j, j < 4 → call j = .throttled) →
      search_flights_retry call = ⟨.error 429, [1, 2, 4, 8], 4⟩) ∧
    (∀ (k s : Nat), k < 4 → (∀ j, j < k → call j = .throttled) → call k = .err s →
      search_flights_retry call = ⟨.error s, (List.range k).map (fun i => 2 ^ i), k + 1⟩) := by
  refine ⟨backoffGo_calls_le call 4 0, ?_, ?_, ?_⟩
  · intro k v hk hth hcall
    have hpre := backoffGo_throttled_start call k 4 0 (Nat.le_of_lt hk)
      (fun j hj => by simpa using hth j hj)
    rw [search_flights_retry, hpre]
    have h4k : 4 - k = (3 - k) + 1 := by omega
    rw [Nat.zero_add, h4k, backoffGo, hcall]
    dsimp only
    rw [List.append_nil,
      List.map_congr_left fun t (_ : t ∈ List.range k) =>
        (by rw [Nat.zero_add] : 2 ^ (0 + t) = 2 ^ t),
      Nat.add_comm 1 k]
  · intro hth
    have hpre := backoffGo_throttled_start call 4 4 0 (Nat.le_refl 4)
      (fun j hj => by simpa using hth j hj)
    rw [search_flights_retry, hpre]
    simp only [Nat.sub_self, Nat.zero_add]
    rw [show backoffGo call 0 4 = ⟨.error 429, [], 0⟩ from rfl]
    dsimp only
    rw [show (List.range 4).map (fun t => 2 ^ t) ++ ([] : List Nat) = [1, 2, 4, 8]
      from by decide]
  · intro k s hk hth hcall
    have hpre := backoffGo_throttled_start call k 4 0 (Nat.le_of_lt hk)
      (fun j hj => by simpa using hth j hj)
    rw [search_flights_retry, hpre]
    have h4k : 4 - k = (3 - k) + 1 := by omega
    rw [Nat.zero_add, h4k, backoffGo, hcall]
    dsimp only
    rw [List.append_nil,
      List.map_congr_left fun t (_ : t ∈ List.range k) =>
        (by rw [Nat.zero_add] : 2 ^ (0 + t) = 2 ^ t),
      Nat.add_comm 1 k]

/-- A stub throttled on attempts 0–2 and successful on attempt 3. -/
def stubThreeThrottles : Nat → ApiResp Nat := fun i => if i < 3 then .throttled else .ok 42

/-- A stub that is throttled on every attempt. -/
def stubAllThrottled : Nat → ApiResp Nat := fun _ => .throttled

/-- A stub whose very first attempt returns a non-throttle error status. -/
def stubServerError : Nat → ApiResp Nat := fun _ => .err 500

/-- C6 witness: three throttles then success returns the success with waits
[1, 2, 4] in 4 attempts; all-throttled fails with 429 after waits [1, 2, 4, 8];
an immediate 500 fails at once with no waits. -/
theorem backoff_policy_witness :
    search_flights_retry stubThreeThrottles = ⟨.ok 42, [1, 2, 4], 4⟩ ∧
    search_flights_retry stubAllThrottled = ⟨.error 429, [1, 2, 4, 8], 4⟩ ∧
    search_flights_retry stubServerError = ⟨.error 500, [], 1⟩ := by
  refine ⟨?_, (backoff_policy stubAllThrottled).2.2.1 (fun j _ => rfl), ?_⟩
  · have h := (backoff_policy stubThreeThrottles).2.1 3 42 (by decide)
      (fun j hj => by simp [stubThreeThrottles, hj]) (by decide)
    rw [h, show (List.range 3).map (fun i => 2 ^ i) = [1, 2, 4] from by decide]
  · have h := (backoff_policy stubServerError).2.2.2 0 500 (by decide)
      (fun j hj => by omega) rfl
    rw [h]
    exact rfl

/-! ### C8: the notification sink fires at most once, only with a best offer -/

/-- C8: in any completed run the sink receives at most one message, receives one
exactly when a best offer exists, and when every fetched offer's parsed price
exceeds the ceiling the run ends with no best offer, no notification, and the
"no deals" report. -/
theorem notify_at_most_once (cfg : Config) (fetch : Fetch) (out : RunOutcome)
    (h : main_run cfg fetch = .ok out) :
    out.alerts.length ≤ 1 ∧
    (out.alerts = [] ↔ out.state.best = none) ∧
    (AllAboveCeiling cfg fetch →
      out.state.best = none ∧ out.alerts = [] ∧
      out.report = "No deals under threshold this run.") := by
  obtain ⟨hs, ha, hr⟩ := main_run_ok_spec h
  refine ⟨?_, ?_, fun H => ?_⟩
  · rw [ha]; cases out.state.best <;> simp
  · rw [ha]; cases out.state.best <;> simp
  · have hb : out.state.best = none := by
      simpa using scanOrigins_nonqual H cfg.origins _ _ hs
    rw [hb] at ha hr
    exact ⟨hb, by simpa using ha, by simpa using hr⟩

/-- A single above-ceiling offer (1200 against ceiling 1000 × 1). -/
def offerAbove : RawOffer := ⟨some (some 1200), []⟩

/-- A fetch returning only the above-ceiling offer. -/
def fetchAbove : Fetch := fun _ => .ok [offerAbove]

/-- The completed run for `cfgOneQuery` against `fetchAbove`. -/
def outAbove : RunOutcome :=
  ⟨⟨4, none, [(⟨"AUS", "TYO", 5, 19⟩, true)]⟩, [], "No deals under threshold this run."⟩

/-- C8 witness: every fetched offer exceeds the ceiling, so the run completes
with no best offer, zero notifications, and the "no deals" report. -/
theorem notify_at_most_once_witness :
    main_run cfgOneQuery fetchAbove = .ok outAbove ∧
    outAbove.state.best = none ∧ outAbove.alerts = [] ∧
    outAbove.report = "No deals under threshold this run." := by
  have hAll : AllAboveCeiling cfgOneQuery fetchAbove := by
    intro q offers hq o ho t ht
    injection hq with hq'
    subst hq'
    simp only [List.mem_singleton] at ho
    subst ho
    have ht' : (1200 : ℚ) = t := by
      injection ht with ht1
      injection ht1
    rw [← ht']
    decide
  have h := (notify_at_most_once cfgOneQuery fetchAbove outAbove rfl).2.2 hAll
  exact ⟨rfl, h.1, h.2.1, h.2.2⟩

/-! ### C10: the upstream `maxPrice` parameter is the truncated ceiling -/

/-- C10: the upstream `maxPrice` parameter, `int(MAX_PRICE_PER_PAX * ADULTS)`,
never exceeds the untruncated local ceiling; whenever the ceiling is not a whole
number it is strictly below it, and every price strictly between the truncated
and exact ceilings passes the local acceptance test of line 162 while exceeding
the upstream filter — the upstream filter is strictly tighter than the local
one. -/
theorem maxprice_truncation (cfg : Config) (h0 : 0 ≤ localCeiling cfg) :
    ((searchMaxPriceParam cfg : ℤ) : ℚ) ≤ localCeiling cfg ∧
    ((localCeiling cfg).den ≠ 1 →
      ((searchMaxPriceParam cfg : ℤ) : ℚ) < localCeiling cfg ∧
      ∀ p : ℚ, ((searchMaxPriceParam cfg : ℤ) : ℚ) < p → p ≤ localCeiling cfg →
        (∀ s : String, qualifies cfg (p, s) = true) ∧
        ¬p ≤ ((searchMaxPriceParam cfg : ℤ) : ℚ)) := by
  have hdef : searchMaxPriceParam cfg = ⌊localCeiling cfg⌋ := pythonInt_floor_of_nonneg h0
  rw [hdef]
  refine ⟨Int.floor_le _, fun hden =>
    ⟨floor_lt_of_den_ne_one hden, fun p hlt hle => ⟨fun s => ?_, not_le.2 hlt⟩⟩⟩
  simp [qualifies, hle]

/-- A configuration whose ceiling, 999.5, is not a whole number. -/
def cfgFractionalCeiling : Config :=
  { origins := ["AUS"], dests := ["TYO"], adults := 1, currency := "USD",
    maxPricePerPax := 999 + 1 / 2, tripLength := 14, departStart := 5, departEnd := 5,
    departWeekdays := {4}, maxRequestsPerRun := 80 }

/-- C10 witness: with ceiling 999.5, the request parameter is 999, strictly
below the ceiling, and the price 999.25 passes the local test while exceeding
the upstream filter. -/
theorem maxprice_truncation_witness :
    searchMaxPriceParam cfgFractionalCeiling = 999 ∧
    ((searchMaxPriceParam cfgFractionalCeiling : ℤ) : ℚ) <
      localCeiling cfgFractionalCeiling ∧
    (∀ s : String, qualifies cfgFractionalCeiling (999 + 1 / 4, s) = true) ∧
    ¬(999 + 1 / 4 : ℚ) ≤ ((searchMaxPriceParam cfgFractionalCeiling : ℤ) : ℚ) := by
  have h := maxprice_truncation cfgFractionalCeiling (by decide)
  have h2 := h.2 (by decide)
  have h3 := h2.2 (999 + 1 / 4) (by decide) (by decide)
  exact ⟨by decide, h2.1, h3.1, h3.2⟩

end Watch
